import Mathlib

/-!
Verification of the faccely AI-scoring-model pipeline.

Shallow embedding of the relevant parts of
`AI-scoring-model/train_model.py`, `AI-scoring-model/api/main.py` and
`AI-scoring-model/test_model.py`.  Machine floats that only ever hold small
decimal constants and exact results are modelled as rationals; the special
IEEE values that the training loop can actually meet (`float("inf")` and a
NaN loss) are modelled explicitly by the `Fl` type.
-/

namespace Faccely

/-! ## Configuration (train_model.py, module level) -/

/-- The canonical ordered metric list (`METRICS` in train_model.py,
api/main.py and test_model.py; all three files contain the same literal). -/
def METRICS : List String :=
  ["jawline", "cheekbones", "eyes_symmetry", "nose_harmony",
   "facial_symmetry", "skin_quality", "sexual_dimorphism"]

/-- `NUM_METRICS = 7`. -/
def NUM_METRICS : Nat := 7

/-- `IMAGE_SIZE = 224`. -/
def IMAGE_SIZE : Nat := 224

/-- `NUM_EPOCHS = 100`. -/
def NUM_EPOCHS : Nat := 100

/-- `PATIENCE = 15`. -/
def PATIENCE : Nat := 15

/-- `VAL_SPLIT = 0.2` (exact decimal, representable as a rational). -/
def VAL_SPLIT : ℚ := 2/10

/-! ## Dataset labels (train_model.py, FacialScoreDataset.__getitem__)

A score record (one value of the `scores_dict` mapping) is a partial map
from metric name to integer score.  The label vector built at line 88-91 is
`[scores.get(m, 50) / 100.0 for m in METRICS]`. -/

/-- A (partial) score record: metric name to integer score, `none` when the
key is absent from the JSON object. -/
def ScoreRecord : Type := String → Option ℤ

/-- The dense label vector of `FacialScoreDataset.__getitem__`:
`[scores.get(m, 50) / 100.0 for m in METRICS]`. -/
def datasetLabels (scores : ScoreRecord) : List ℚ :=
  METRICS.map (fun m => (((scores m).getD 50 : ℤ) : ℚ) / 100)

/-- A concrete score record used to witness the label-vector theorem:
only the first metric is present. -/
def sampleScores : ScoreRecord :=
  fun m => if m = "jawline" then some 80 else none

/-- C6: for every score record with any subset of the 7 canonical keys and
integer values in `[0,100]`, the dense label vector has exactly 7 entries in
canonical metric order, each equal to `score/100` and lying in `[0,1]`, and
every missing key is mapped to exactly `0.5`. -/
theorem c6_dense_label_vector (scores : ScoreRecord)
    (hrange : ∀ m v, scores m = some v → 0 ≤ v ∧ v ≤ 100) :
    (datasetLabels scores).length = 7 ∧
    ∀ i (hi : i < METRICS.length) (hi' : i < (datasetLabels scores).length),
      (scores (METRICS.get ⟨i, hi⟩) = none →
          (datasetLabels scores).get ⟨i, hi'⟩ = 1/2) ∧
      (∀ v, scores (METRICS.get ⟨i, hi⟩) = some v →
          (datasetLabels scores).get ⟨i, hi'⟩ = (v : ℚ) / 100) ∧
      0 ≤ (datasetLabels scores).get ⟨i, hi'⟩ ∧
      (datasetLabels scores).get ⟨i, hi'⟩ ≤ 1 := by
  refine ⟨by simp [datasetLabels, METRICS], ?_⟩
  intro i hi hi'
  have hv : (datasetLabels scores).get ⟨i, hi'⟩
      = (((scores (METRICS.get ⟨i, hi⟩)).getD 50 : ℤ) : ℚ) / 100 := by
    simp [datasetLabels]
  rw [hv]
  cases hs : scores (METRICS.get ⟨i, hi⟩) with
  | none =>
      refine ⟨fun _ => by norm_num, fun v hv' => by simp at hv', ?_, ?_⟩ <;> norm_num
  | some v =>
      obtain ⟨h0, h100⟩ := hrange _ v hs
      refine ⟨fun h => by simp at h, ?_, ?_, ?_⟩
      · intro w hw
        injection hw with h
        subst h
        simp
      · simp only [Option.getD_some]
        positivity
      · simp only [Option.getD_some]
        rw [div_le_one (by norm_num)]
        exact_mod_cast h100

/-- Witness for C6 at the concrete record `sampleScores`. -/
theorem c6_dense_label_vector_witness :
    (∀ m v, sampleScores m = some v → 0 ≤ v ∧ v ≤ 100) ∧
    ((datasetLabels sampleScores).length = 7 ∧
     ∀ i (hi : i < METRICS.length)
       (hi' : i < (datasetLabels sampleScores).length),
      (sampleScores (METRICS.get ⟨i, hi⟩) = none →
          (datasetLabels sampleScores).get ⟨i, hi'⟩ = 1/2) ∧
      (∀ v, sampleScores (METRICS.get ⟨i, hi⟩) = some v →
          (datasetLabels sampleScores).get ⟨i, hi'⟩ = (v : ℚ) / 100) ∧
      0 ≤ (datasetLabels sampleScores).get ⟨i, hi'⟩ ∧
      (datasetLabels sampleScores).get ⟨i, hi'⟩ ≤ 1) := by
  have hr : ∀ m v, sampleScores m = some v → 0 ≤ v ∧ v ≤ 100 := by
    intro m v h
    unfold sampleScores at h
    by_cases hm : m = "jawline" <;> simp [hm] at h
    omega
  exact ⟨hr, c6_dense_label_vector sampleScores hr⟩

/-! ## Preprocessing pipelines (train_model.py get_transforms,
api/main.py get_inference_transform, test_model.py get_inference_transform)

A torchvision `Compose` argument is embedded as a list of transform steps.
The stochastic training-only steps are represented syntactically; only the
deterministic steps receive semantics below. -/

/-- One torchvision transform step, with its parameters. -/
inductive TStep where
  | resize (hgt wdt : Nat)
  | randomResizedCrop (size : Nat) (scaleLo scaleHi : ℚ)
  | randomHorizontalFlip (p : ℚ)
  | randomRotation (degrees : ℚ)
  | colorJitter (brightness contrast saturation hue : ℚ)
  | toTensor
  | normalize (mean std : List ℚ)
  deriving DecidableEq

namespace TrainModelPy

/-- `get_transforms(is_training)` of train_model.py: the training branch has
the augmentation steps, the other branch is the deterministic
resize/to-tensor/normalize sequence. -/
def get_transforms (is_training : Bool) : List TStep :=
  if is_training then
    [TStep.resize (IMAGE_SIZE + 32) (IMAGE_SIZE + 32),
     TStep.randomResizedCrop IMAGE_SIZE (8/10) 1,
     TStep.randomHorizontalFlip (5/10),
     TStep.randomRotation 15,
     TStep.colorJitter (2/10) (2/10) (2/10) (1/10),
     TStep.toTensor,
     TStep.normalize [485/1000, 456/1000, 406/1000] [229/1000, 224/1000, 225/1000]]
  else
    [TStep.resize IMAGE_SIZE IMAGE_SIZE,
     TStep.toTensor,
     TStep.normalize [485/1000, 456/1000, 406/1000] [229/1000, 224/1000, 225/1000]]

end TrainModelPy

namespace ApiMainPy

/-- `get_inference_transform()` of api/main.py. -/
def get_inference_transform : List TStep :=
  [TStep.resize IMAGE_SIZE IMAGE_SIZE,
   TStep.toTensor,
   TStep.normalize [485/1000, 456/1000, 406/1000] [229/1000, 224/1000, 225/1000]]

end ApiMainPy

namespace TestModelPy

/-- `get_inference_transform()` of test_model.py. -/
def get_inference_transform : List TStep :=
  [TStep.resize IMAGE_SIZE IMAGE_SIZE,
   TStep.toTensor,
   TStep.normalize [485/1000, 456/1000, 406/1000] [229/1000, 224/1000, 225/1000]]

end TestModelPy

/-- An RGB image: dimensions plus an 8-bit pixel value for each
(channel, row, column) triple. -/
structure Img where
  width : Nat
  height : Nat
  px : Nat → Nat → Nat → Nat

/-- A channel-first float tensor. -/
structure Tensor where
  C : Nat
  H : Nat
  W : Nat
  val : Nat → Nat → Nat → ℚ

/-- Pipeline state: an image before `ToTensor`, a tensor after it; `undef`
for the stochastic steps, which have no deterministic semantics. -/
inductive PState where
  | img (i : Img)
  | ten (t : Tensor)
  | undef

/-- `transforms.ToTensor()`: scale 8-bit channel values to `[0,1]`. -/
def toTensorF (i : Img) : Tensor :=
  ⟨3, i.height, i.width, fun c y x => (i.px c y x : ℚ) / 255⟩

/-- `transforms.Normalize(mean, std)`: per-channel affine normalization. -/
def normalizeF (mean std : List ℚ) (t : Tensor) : Tensor :=
  ⟨t.C, t.H, t.W, fun c y x => (t.val c y x - mean.getD c 0) / std.getD c 1⟩

/-- Semantics of one deterministic step.  `resizeF` is the (abstract,
shared) interpolation kernel used by `transforms.Resize`. -/
def applyStep (resizeF : Nat → Nat → Img → Img) : TStep → PState → PState
  | TStep.resize hh ww, PState.img i => PState.img (resizeF hh ww i)
  | TStep.toTensor, PState.img i => PState.ten (toTensorF i)
  | TStep.normalize m s, PState.ten t => PState.ten (normalizeF m s t)
  | _, _ => PState.undef

/-- Semantics of a `Compose` list: left fold of the steps. -/
def applyPipeline (resizeF : Nat → Nat → Img → Img) (steps : List TStep)
    (s : PState) : PState :=
  steps.foldl (fun st step => applyStep resizeF step st) s

/-- C2: the deterministic preprocessing used at training-time validation
(`get_transforms(is_training=False)`), at offline evaluation
(test_model.py) and at serving time (api/main.py) is the same
resize-224/to-tensor/normalize sequence with the ImageNet constants, hence
yields identical output tensors on every input image. -/
theorem c2_preprocessing_parity :
    TrainModelPy.get_transforms false = ApiMainPy.get_inference_transform ∧
    ApiMainPy.get_inference_transform = TestModelPy.get_inference_transform ∧
    ApiMainPy.get_inference_transform =
      [TStep.resize 224 224, TStep.toTensor,
       TStep.normalize [485/1000, 456/1000, 406/1000]
         [229/1000, 224/1000, 225/1000]] ∧
    ∀ (resizeF : Nat → Nat → Img → Img) (i : Img),
      applyPipeline resizeF (TrainModelPy.get_transforms false)
          (PState.img i)
        = applyPipeline resizeF ApiMainPy.get_inference_transform
          (PState.img i) ∧
      applyPipeline resizeF ApiMainPy.get_inference_transform
          (PState.img i)
        = applyPipeline resizeF TestModelPy.get_inference_transform
          (PState.img i) :=
  ⟨rfl, rfl, rfl, fun _ _ => ⟨rfl, rfl⟩⟩

/-! ## Training loop (train_model.py main, lines 311-365)

The checkpoint / early-stopping bookkeeping of the epoch loop, with the
validation losses of the epochs as input. -/

/-- A Python float as the training loop sees it: a finite value, the
initial `float("inf")` best, or a NaN from a divergent loss.  (The L1 loss
is a mean of absolute values, so `-inf` cannot occur.) -/
inductive Fl where
  | fin (q : ℚ)
  | inf
  | nan
  deriving DecidableEq

/-- IEEE `<` on those values: every comparison against NaN is false,
`inf < x` is false, `fin a < inf` is true. -/
def flt : Fl → Fl → Bool
  | _, Fl.nan => false
  | Fl.nan, _ => false
  | Fl.inf, _ => false
  | Fl.fin _, Fl.inf => true
  | Fl.fin a, Fl.fin b => decide (a < b)

/-- Loop state of `main()`: `best_val_loss` (initially `float("inf")`),
`patience_counter`, and the validation losses at which `torch.save` ran
(the checkpoint writes, in order). -/
structure TrainState where
  best : Fl
  patienceCounter : Nat
  saves : List Fl
  deriving DecidableEq

/-- The state before the first epoch (lines 313-314). -/
def initState : TrainState := ⟨Fl.inf, 0, []⟩

/-- Lines 345-360: on strict improvement update `best_val_loss`, reset the
patience counter and save a checkpoint; otherwise increment the counter. -/
def processEpoch (s : TrainState) (valLoss : Fl) : TrainState :=
  if flt valLoss s.best then
    ⟨valLoss, 0, s.saves ++ [valLoss]⟩
  else
    ⟨s.best, s.patienceCounter + 1, s.saves⟩

/-- The epoch loop (lines 319-365): one list entry per epoch, `break` as
soon as `patience_counter >= patience` after the epoch's bookkeeping.
Returns how many epochs ran together with the final state; a list of
length `NUM_EPOCHS` models the `range(NUM_EPOCHS)` budget. -/
def runEpochs (patience : Nat) : TrainState → List Fl → Nat × TrainState
  | s, [] => (0, s)
  | s, l :: ls =>
    if patience ≤ (processEpoch s l).patienceCounter then (1, processEpoch s l)
    else ((runEpochs patience (processEpoch s l) ls).1 + 1,
          (runEpochs patience (processEpoch s l) ls).2)

/-- The invariant tying the saved-checkpoint list to `best_val_loss`:
consecutive saves strictly decrease, and the last save (if any) is the
current best. -/
def SavesInv (s : TrainState) : Prop :=
  List.Chain' (fun a b => flt b a = true) s.saves ∧
  ∀ x ∈ s.saves.getLast?, x = s.best

theorem processEpoch_savesInv {s : TrainState} (l : Fl) (h : SavesInv s) :
    SavesInv (processEpoch s l) := by
  obtain ⟨hc, hl⟩ := h
  unfold processEpoch SavesInv
  split
  case isTrue himp =>
    constructor
    · exact List.chain'_append.mpr
        ⟨hc, List.chain'_singleton l, fun x hx y hy => by
          simp only [List.head?] at hy
          cases hy
          rw [hl x hx]
          exact himp⟩
    · intro x hx
      simp only [List.getLast?_concat] at hx
      cases hx
      rfl
  case isFalse =>
    exact ⟨hc, hl⟩

theorem runEpochs_savesInv (patience : Nat) :
    ∀ (ls : List Fl) (s : TrainState), SavesInv s →
      SavesInv (runEpochs patience s ls).2 := by
  intro ls
  induction ls with
  | nil => intro s h; exact h
  | cons l ls ih =>
      intro s h
      have h' := processEpoch_savesInv l h
      unfold runEpochs
      split
      · exact h'
      · exact ih _ h'

theorem flt_isFin {a b : Fl} (h : flt a b = true) : ∃ q, a = Fl.fin q := by
  cases a with
  | fin q => exact ⟨q, rfl⟩
  | inf => cases b <;> simp [flt] at h
  | nan => cases b <;> simp [flt] at h

theorem processEpoch_savesFin {s : TrainState} (l : Fl)
    (h : ∀ x ∈ s.saves, ∃ q, x = Fl.fin q) :
    ∀ x ∈ (processEpoch s l).saves, ∃ q, x = Fl.fin q := by
  unfold processEpoch
  split
  case isTrue himp =>
    intro x hx
    rcases List.mem_append.mp hx with hx | hx
    · exact h x hx
    · have hxl : x = l := List.mem_singleton.mp hx
      subst hxl
      exact flt_isFin himp
  case isFalse => exact h

theorem runEpochs_savesFin (patience : Nat) :
    ∀ (ls : List Fl) (s : TrainState),
      (∀ x ∈ s.saves, ∃ q, x = Fl.fin q) →
      ∀ x ∈ (runEpochs patience s ls).2.saves, ∃ q, x = Fl.fin q := by
  intro ls
  induction ls with
  | nil => intro s h; exact h
  | cons l ls ih =>
      intro s h
      have h' := processEpoch_savesFin l h
      unfold runEpochs
      split
      · exact h'
      · exact ih _ h'

/-- The run respects the budget, stops exactly at the first epoch whose
patience counter reaches the threshold, and its final state is the fold of
the epochs it executed. -/
theorem runEpochs_spec (patience : Nat) :
    ∀ (ls : List Fl) (s : TrainState),
      (runEpochs patience s ls).1 ≤ ls.length ∧
      (runEpochs patience s ls).2 =
        (ls.take (runEpochs patience s ls).1).foldl processEpoch s ∧
      (∀ k, k + 1 < (runEpochs patience s ls).1 →
        ((ls.take (k+1)).foldl processEpoch s).patienceCounter < patience) ∧
      ((runEpochs patience s ls).1 < ls.length →
        patience ≤ (runEpochs patience s ls).2.patienceCounter) := by
  intro ls
  induction ls with
  | nil =>
      intro s
      refine ⟨Nat.le_refl 0, rfl, ?_, ?_⟩
      · intro k hk
        simp [runEpochs] at hk
      · intro hlt
        simp [runEpochs] at hlt
  | cons l ls ih =>
      intro s
      obtain ⟨ih1, ih2, ih3, ih4⟩ := ih (processEpoch s l)
      unfold runEpochs
      split
      case isTrue hstop =>
        refine ⟨by simp, by simp [List.take_succ_cons], ?_, fun _ => hstop⟩
        intro k hk
        omega
      case isFalse hgo =>
        refine ⟨by simpa using Nat.succ_le_succ ih1,
          by simpa [List.take_succ_cons] using ih2, ?_, ?_⟩
        · intro k hk
          cases k with
          | zero =>
              simpa [List.take_succ_cons] using Nat.lt_of_not_le hgo
          | succ k' =>
              simpa [List.take_succ_cons] using ih3 k' (by omega)
        · intro hlt
          exact ih4 (by simpa using Nat.lt_of_succ_lt_succ hlt)

/-- C1 counterexample: on the validation-loss sequence
`[0.30, 0.25, 0.27, 0.20]` the loop writes three checkpoints, at losses
0.30, 0.25 and 0.20 — in particular it does write at 0.25 (which strictly
improves on 0.30), so the claimed "exactly two writes, never at 0.25" is
false. -/
theorem c1_checkpoint_counterexample :
    (runEpochs PATIENCE initState
        [Fl.fin (30/100), Fl.fin (25/100), Fl.fin (27/100),
         Fl.fin (20/100)]).2.saves
      = [Fl.fin (30/100), Fl.fin (25/100), Fl.fin (20/100)] ∧
    Fl.fin (25/100) ∈ (runEpochs PATIENCE initState
        [Fl.fin (30/100), Fl.fin (25/100), Fl.fin (27/100),
         Fl.fin (20/100)]).2.saves ∧
    ((runEpochs PATIENCE initState
        [Fl.fin (30/100), Fl.fin (25/100), Fl.fin (27/100),
         Fl.fin (20/100)]).2.saves).length ≠ 2 := by
  norm_num [runEpochs, processEpoch, flt, initState, PATIENCE]

/-- C1 (amended): a checkpoint write occurs only on strict improvement of
the best validation loss — the written losses are strictly decreasing, so
a checkpoint is only ever overwritten by a strictly better one — and on
`[0.30, 0.25, 0.27, 0.20]` exactly three writes occur, at losses 0.30,
0.25 and 0.20, never at 0.27. -/
theorem c1_checkpoint_monotonicity :
    (∀ (patience : Nat) (losses : List Fl),
        List.Chain' (fun a b => flt b a = true)
          (runEpochs patience initState losses).2.saves) ∧
    (runEpochs PATIENCE initState
        [Fl.fin (30/100), Fl.fin (25/100), Fl.fin (27/100),
         Fl.fin (20/100)]).2.saves
      = [Fl.fin (30/100), Fl.fin (25/100), Fl.fin (20/100)] := by
  constructor
  · intro p losses
    exact (runEpochs_savesInv p losses initState
      ⟨List.chain'_nil, by simp [initState]⟩).1
  · norm_num [runEpochs, processEpoch, flt, initState, PATIENCE]

/-- C7: training stops at the first epoch whose consecutive-non-improvement
counter reaches the patience threshold (canonical `PATIENCE = 15`), or when
the epoch budget (canonical `NUM_EPOCHS = 100`, the length of the loss
list) is exhausted, whichever comes first; with patience 3 and losses
`[0.5, 0.4, 0.41, 0.42, 0.43]` it halts after the 5th epoch. -/
theorem c7_early_stopping :
    PATIENCE = 15 ∧ NUM_EPOCHS = 100 ∧
    (∀ (patience : Nat) (losses : List Fl),
      (runEpochs patience initState losses).1 ≤ losses.length ∧
      (∀ k, k + 1 < (runEpochs patience initState losses).1 →
        ((losses.take (k+1)).foldl processEpoch initState).patienceCounter
          < patience) ∧
      ((runEpochs patience initState losses).1 < losses.length →
        patience ≤ (runEpochs patience initState losses).2.patienceCounter)) ∧
    (runEpochs 3 initState
        [Fl.fin (5/10), Fl.fin (4/10), Fl.fin (41/100), Fl.fin (42/100),
         Fl.fin (43/100)]).1 = 5 := by
  refine ⟨rfl, rfl, ?_,
    by norm_num [runEpochs, processEpoch, flt, initState]⟩
  intro p losses
  obtain ⟨h1, _, h3, h4⟩ := runEpochs_spec p losses initState
  exact ⟨h1, h3, h4⟩

/-- C9 counterexample: the loop has no finiteness check, so with losses
`[0.5, NaN, NaN]` training runs all 3 epochs instead of halting at the
first non-finite loss (epoch 2). -/
theorem c9_divergence_counterexample :
    (runEpochs PATIENCE initState [Fl.fin (1/2), Fl.nan, Fl.nan]).1 = 3 ∧
    (3 : Nat) ≠ 2 := by
  norm_num [runEpochs, processEpoch, flt, initState, PATIENCE]

/-- C9 (amended): training does not halt when the loss becomes non-finite
(it keeps iterating until patience or the epoch budget stops it), but a
non-finite validation loss never compares `<` against the best, so it never
triggers a checkpoint write: every persisted checkpoint has a finite loss
and a previously saved good checkpoint is never overwritten under a
non-finite one. -/
theorem c9_nonfinite_never_persisted :
    (∀ (patience : Nat) (losses : List Fl) (x : Fl),
        x ∈ (runEpochs patience initState losses).2.saves →
          ∃ q, x = Fl.fin q) ∧
    (runEpochs PATIENCE initState [Fl.fin (1/2), Fl.nan, Fl.nan]).2.saves
      = [Fl.fin (1/2)] ∧
    (runEpochs PATIENCE initState [Fl.fin (1/2), Fl.nan, Fl.nan]).1 = 3 := by
  refine ⟨?_, by norm_num [runEpochs, processEpoch, flt, initState, PATIENCE],
    by norm_num [runEpochs, processEpoch, flt, initState, PATIENCE]⟩
  intro p losses x hx
  exact runEpochs_savesFin p losses initState (by simp [initState]) x hx

/-! ## Train/validation split (train_model.py main, lines 271-275)

`random.shuffle(image_paths)` is CPython's Fisher-Yates loop
`for i in reversed(range(1, len(x))): j = randbelow(i+1); x[i], x[j] =
x[j], x[i]`, embedded with an abstract random stream `rand` whose draw for
position `i` is reduced mod `i+1` (as `_randbelow` guarantees). -/

/-- The Python tuple assignment `x[i], x[j] = x[j], x[i]`. -/
def listSwap {α : Type*} (l : List α) (i j : Nat) : List α :=
  if h : i < l.length ∧ j < l.length then
    (l.set i (l.get ⟨j, h.2⟩)).set j (l.get ⟨i, h.1⟩)
  else l

theorem cons_set_perm {α : Type*} :
    ∀ (t : List α) (m : Nat) (hm : m < t.length) (a : α),
      List.Perm (t.get ⟨m, hm⟩ :: t.set m a) (a :: t) := by
  intro t
  induction t with
  | nil => intro m hm a; simp at hm
  | cons b t' ih =>
      intro m hm a
      cases m with
      | zero => simpa using List.Perm.swap a b t'
      | succ k =>
          have hk : k < t'.length := by simpa using hm
          have h2 : List.Perm (t'.get ⟨k, hk⟩ :: t'.set k a) (a :: t') :=
            ih k hk a
          have p1 : List.Perm (t'.get ⟨k, hk⟩ :: b :: t'.set k a)
              (b :: t'.get ⟨k, hk⟩ :: t'.set k a) :=
            List.Perm.swap b (t'.get ⟨k, hk⟩) (t'.set k a)
          have p3 : List.Perm (b :: a :: t') (a :: b :: t') :=
            List.Perm.swap a b t'
          simpa using p1.trans ((h2.cons b).trans p3)

theorem set_set_perm {α : Type*} :
    ∀ (l : List α) (i j : Nat) (hi : i < l.length) (hj : j < l.length),
      List.Perm ((l.set i (l.get ⟨j, hj⟩)).set j (l.get ⟨i, hi⟩)) l := by
  intro l
  induction l with
  | nil => intro i j hi hj; simp at hi
  | cons a t ih =>
      intro i j hi hj
      cases i with
      | zero =>
        cases j with
        | zero => simp
        | succ m =>
            have hm : m < t.length := by simpa using hj
            simpa using cons_set_perm t m hm a
      | succ n =>
        cases j with
        | zero =>
            have hn : n < t.length := by simpa using hi
            simpa using cons_set_perm t n hn a
        | succ m =>
            have hn : n < t.length := by simpa using hi
            have hm : m < t.length := by simpa using hj
            simpa using (ih n m hn hm).cons a

theorem listSwap_perm {α : Type*} (l : List α) (i j : Nat) :
    List.Perm (listSwap l i j) l := by
  unfold listSwap
  split
  case isTrue h => exact set_set_perm l i j h.1 h.2
  case isFalse h => exact List.Perm.refl l

/-- The Fisher-Yates swap sequence of `random.shuffle`, processing
positions `k, k-1, ..., 1`. -/
def shuffleSwaps {α : Type*} (rand : Nat → Nat) : List α → Nat → List α
  | l, 0 => l
  | l, Nat.succ k =>
      shuffleSwaps rand (listSwap l (k+1) (rand (k+1) % (k+2))) k

/-- `random.shuffle(x)`: run the swaps for `i = len(x)-1` down to `1`. -/
def pyShuffle {α : Type*} (rand : Nat → Nat) (l : List α) : List α :=
  shuffleSwaps rand l (l.length - 1)

theorem shuffleSwaps_perm {α : Type*} (rand : Nat → Nat) :
    ∀ (k : Nat) (l : List α), List.Perm (shuffleSwaps rand l k) l := by
  intro k
  induction k with
  | zero => intro l; exact List.Perm.refl l
  | succ k ih =>
      intro l
      exact (ih _).trans (listSwap_perm l (k+1) (rand (k+1) % (k+2)))

theorem pyShuffle_perm {α : Type*} (rand : Nat → Nat) (l : List α) :
    List.Perm (pyShuffle rand l) l :=
  shuffleSwaps_perm rand (l.length - 1) l

/-- `split_idx = int(len(image_paths) * (1 - VAL_SPLIT))` — on these values
CPython's float arithmetic is exact enough that the result equals the exact
rational floor, which is how it is modelled. -/
def splitIdx (n : Nat) : Nat := ⌊(n : ℚ) * (1 - VAL_SPLIT)⌋₊

theorem splitIdx_eq (n : Nat) : splitIdx n = 4 * n / 5 := by
  unfold splitIdx VAL_SPLIT
  have h : (n : ℚ) * (1 - 2/10) = ((4 * n : ℕ) : ℚ) / ((5 : ℕ) : ℚ) := by
    push_cast
    ring
  rw [h, Nat.floor_div_nat, Nat.floor_natCast]

/-- Lines 271-275 of train_model.py: shuffle, then window into
`train_paths = image_paths[:split_idx]` and
`val_paths = image_paths[split_idx:]`. -/
def trainValSplit {α : Type*} (rand : Nat → Nat) (entries : List α) :
    List α × List α :=
  ((pyShuffle rand entries).take (splitIdx entries.length),
   (pyShuffle rand entries).drop (splitIdx entries.length))

/-- C5: for every entry list (of distinct entries) and random stream, the
split is exhaustive (train ++ val is a permutation of the entries),
disjoint, uses the default held-out fraction `VAL_SPLIT = 0.2`, and is a
deterministic function of the stream and the entry ordering, so two runs
with the same seed produce identical splits. -/
theorem c5_split_disjoint_exhaustive {α : Type*} (rand : Nat → Nat)
    (entries : List α) (hnd : entries.Nodup) :
    List.Perm
      ((trainValSplit rand entries).1 ++ (trainValSplit rand entries).2)
      entries ∧
    (trainValSplit rand entries).1.Disjoint (trainValSplit rand entries).2 ∧
    VAL_SPLIT = 2/10 ∧
    trainValSplit rand entries = trainValSplit rand entries := by
  have hperm : List.Perm (pyShuffle rand entries) entries :=
    pyShuffle_perm rand entries
  have htd : (trainValSplit rand entries).1 ++ (trainValSplit rand entries).2
      = pyShuffle rand entries := List.take_append_drop _ _
  refine ⟨htd ▸ hperm, ?_, rfl, rfl⟩
  have hnd' : (pyShuffle rand entries).Nodup := hperm.nodup_iff.mpr hnd
  exact List.disjoint_of_nodup_append (htd ▸ hnd')

/-- Witness for C5 on the 5-element entry list `[0, 1, 2, 3, 4]` with the
all-zero random stream. -/
theorem c5_split_disjoint_exhaustive_witness :
    ([0, 1, 2, 3, 4] : List Nat).Nodup ∧
    (List.Perm
        ((trainValSplit (fun _ => 0) [0, 1, 2, 3, 4]).1
          ++ (trainValSplit (fun _ => 0) [0, 1, 2, 3, 4]).2)
        ([0, 1, 2, 3, 4] : List Nat) ∧
     (trainValSplit (fun _ => 0) ([0, 1, 2, 3, 4] : List Nat)).1.Disjoint
        (trainValSplit (fun _ => 0) [0, 1, 2, 3, 4]).2 ∧
     VAL_SPLIT = 2/10 ∧
     trainValSplit (fun _ => 0) ([0, 1, 2, 3, 4] : List Nat)
       = trainValSplit (fun _ => 0) [0, 1, 2, 3, 4]) :=
  ⟨by decide, c5_split_disjoint_exhaustive (fun _ => 0) [0, 1, 2, 3, 4]
    (by decide)⟩

/-- The final division of `train_epoch` (line 180):
`total_loss / len(loader.dataset)` over the per-item losses; an empty
training set makes this a Python ZeroDivisionError, modelled as `none`. -/
def train_epoch_avg (perItemLoss : List ℚ) : Option ℚ :=
  if perItemLoss.length = 0 then none
  else some (perItemLoss.sum / perItemLoss.length)

/-- The final division of `validate` (line 207), same shape. -/
def validate_avg (perItemLoss : List ℚ) : Option ℚ :=
  if perItemLoss.length = 0 then none
  else some (perItemLoss.sum / perItemLoss.length)

/-- C10: for every non-empty entry list split with the default fraction,
the validation side is non-empty (the split index is strictly below the
length), so the per-epoch validation-loss average is always defined; the
training side is empty exactly when the list has one entry, and then the
training-loss average is a division by zero. -/
theorem c10_split_edge_cases {α : Type*} (rand : Nat → Nat)
    (entries : List α) (h1 : 1 ≤ entries.length) :
    splitIdx entries.length < entries.length ∧
    (trainValSplit rand entries).2 ≠ [] ∧
    ((trainValSplit rand entries).1 = [] ↔ entries.length = 1) ∧
    (∀ perItemLoss : List ℚ,
        perItemLoss.length = (trainValSplit rand entries).2.length →
        (validate_avg perItemLoss).isSome) ∧
    (entries.length = 1 →
      ∀ perItemLoss : List ℚ,
        perItemLoss.length = (trainValSplit rand entries).1.length →
        train_epoch_avg perItemLoss = none) := by
  have hlen : (pyShuffle rand entries).length = entries.length :=
    (pyShuffle_perm rand entries).length_eq
  have hk : splitIdx entries.length = 4 * entries.length / 5 :=
    splitIdx_eq entries.length
  have hvallen : (trainValSplit rand entries).2.length
      = entries.length - splitIdx entries.length := by
    simp [trainValSplit, hlen]
  have htrlen : (trainValSplit rand entries).1.length
      = min (splitIdx entries.length) entries.length := by
    simp [trainValSplit, hlen]
  refine ⟨by rw [hk]; omega, ?_, ?_, ?_, ?_⟩
  · intro hnil
    have hz := congrArg List.length hnil
    rw [hvallen] at hz
    simp at hz
    omega
  · constructor
    · intro hnil
      have hz := congrArg List.length hnil
      rw [htrlen, hk] at hz
      simp only [List.length_nil, Nat.min_eq_zero_iff] at hz
      omega
    · intro hone
      have hz : splitIdx entries.length = 0 := by
        rw [hk, hone]
      simp [trainValSplit, hz]
  · intro per hper
    rw [hvallen] at hper
    have hnz : per.length ≠ 0 := by omega
    simp [validate_avg, hnz]
  · intro hone per hper
    rw [htrlen] at hper
    have hz : per.length = 0 := by omega
    simp [train_epoch_avg, hz]

/-- Witness for C10 on the one-entry list `[0]`: the validation side gets
the single entry, the training side is empty. -/
theorem c10_split_edge_cases_witness :
    1 ≤ ([0] : List Nat).length ∧
    (splitIdx ([0] : List Nat).length < ([0] : List Nat).length ∧
     (trainValSplit (fun _ => 0) ([0] : List Nat)).2 ≠ [] ∧
     ((trainValSplit (fun _ => 0) ([0] : List Nat)).1 = []
        ↔ ([0] : List Nat).length = 1) ∧
     (∀ perItemLoss : List ℚ,
        perItemLoss.length
          = (trainValSplit (fun _ => 0) ([0] : List Nat)).2.length →
        (validate_avg perItemLoss).isSome) ∧
     (([0] : List Nat).length = 1 →
      ∀ perItemLoss : List ℚ,
        perItemLoss.length
          = (trainValSplit (fun _ => 0) ([0] : List Nat)).1.length →
        train_epoch_avg perItemLoss = none)) :=
  ⟨by decide, c10_split_edge_cases (fun _ => 0) [0] (by decide)⟩

/-! ## Serving-time score conversion (api/main.py process_image, 234-240)

`int(round(score))` uses Python's built-in `round`, which rounds half to
even. -/

/-- Python's one-argument `round` on a float: nearest integer, ties to
even. -/
def pyRound (q : ℚ) : ℤ :=
  if q - ⌊q⌋ < 1/2 then ⌊q⌋
  else if (1/2 : ℚ) < q - ⌊q⌋ then ⌊q⌋ + 1
  else if ⌊q⌋ % 2 = 0 then ⌊q⌋ else ⌊q⌋ + 1

theorem pyRound_nearest (q : ℚ) : |q - (pyRound q : ℚ)| ≤ 1/2 := by
  have h0 : ((⌊q⌋ : ℤ) : ℚ) ≤ q := Int.floor_le q
  have h1 : q < ⌊q⌋ + 1 := Int.lt_floor_add_one q
  unfold pyRound
  split
  case isTrue h =>
    rw [abs_le]
    constructor <;> linarith
  case isFalse h =>
    split
    case isTrue h' =>
      rw [abs_le]
      constructor <;> push_cast <;> linarith
    case isFalse h' =>
      have heq : q - ⌊q⌋ = 1/2 := by linarith [not_lt.mp h, not_lt.mp h']
      split <;> rw [abs_le] <;> constructor <;> push_cast <;> linarith

theorem pyRound_tie_even (q : ℚ) (h : q - ⌊q⌋ = 1/2) : pyRound q % 2 = 0 := by
  unfold pyRound
  rw [h]
  norm_num
  split
  case isTrue he => exact he
  case isFalse he => omega

/-- Lines 234-240 of api/main.py: multiply the 7 model outputs by 100 and
round each to an integer, pairing them with the metric names in order. -/
def outputToScores (output : List ℚ) : List (String × ℤ) :=
  METRICS.zip ((output.map (fun s => s * 100)).map (fun s => pyRound s))

/-- C8: the served score for metric `i` is the model output `v i`
multiplied by 100 and rounded to the nearest integer, independently per
metric (the entry at index `i` is a function of `v i` alone), and the tie
rule is round-half-to-even, checked at the boundary outputs 0.495 and
0.505 (49.5 and 50.5 both round to 50). -/
theorem c8_denormalization (v : List ℚ) (hlen : v.length = 7)
    (hrange : ∀ x ∈ v, 0 < x ∧ x < 1) :
    (outputToScores v).length = 7 ∧
    (∀ i (him : i < METRICS.length) (hiv : i < v.length)
        (hio : i < (outputToScores v).length),
      (outputToScores v).get ⟨i, hio⟩
        = (METRICS.get ⟨i, him⟩, pyRound (v.get ⟨i, hiv⟩ * 100))) ∧
    (∀ q : ℚ, |q - (pyRound q : ℚ)| ≤ 1/2) ∧
    (∀ q : ℚ, q - ⌊q⌋ = 1/2 → pyRound q % 2 = 0) ∧
    pyRound ((495/1000 : ℚ) * 100) = 50 ∧
    pyRound ((505/1000 : ℚ) * 100) = 50 := by
  refine ⟨?_, ?_, pyRound_nearest, pyRound_tie_even, ?_, ?_⟩
  · simp [outputToScores, METRICS, hlen]
  · intro i him hiv hio
    simp [outputToScores]
  · have hf : ⌊(495/1000 : ℚ) * 100⌋ = 49 := by
      rw [Int.floor_eq_iff]
      norm_num
    unfold pyRound
    rw [hf]
    norm_num
  · have hf : ⌊(505/1000 : ℚ) * 100⌋ = 50 := by
      rw [Int.floor_eq_iff]
      norm_num
    unfold pyRound
    rw [hf]
    norm_num

/-- Witness for C8 at a concrete output vector containing the normal and
boundary values. -/
theorem c8_denormalization_witness :
    ([72/100, 84/100, 1/2, 495/1000, 505/1000, 1/10, 9/10] : List ℚ).length
      = 7 ∧
    (∀ x ∈ ([72/100, 84/100, 1/2, 495/1000, 505/1000, 1/10, 9/10] : List ℚ),
      0 < x ∧ x < 1) ∧
    ((outputToScores
        [72/100, 84/100, 1/2, 495/1000, 505/1000, 1/10, 9/10]).length = 7 ∧
     (∀ i (him : i < METRICS.length)
        (hiv : i < ([72/100, 84/100, 1/2, 495/1000, 505/1000, 1/10, 9/10]
          : List ℚ).length)
        (hio : i < (outputToScores
          [72/100, 84/100, 1/2, 495/1000, 505/1000, 1/10, 9/10]).length),
      (outputToScores
          [72/100, 84/100, 1/2, 495/1000, 505/1000, 1/10, 9/10]).get ⟨i, hio⟩
        = (METRICS.get ⟨i, him⟩,
           pyRound (([72/100, 84/100, 1/2, 495/1000, 505/1000, 1/10, 9/10]
             : List ℚ).get ⟨i, hiv⟩ * 100))) ∧
     (∀ q : ℚ, |q - (pyRound q : ℚ)| ≤ 1/2) ∧
     (∀ q : ℚ, q - ⌊q⌋ = 1/2 → pyRound q % 2 = 0) ∧
     pyRound ((495/1000 : ℚ) * 100) = 50 ∧
     pyRound ((505/1000 : ℚ) * 100) = 50) := by
  have hlen : ([72/100, 84/100, 1/2, 495/1000, 505/1000, 1/10, 9/10]
      : List ℚ).length = 7 := by
    simp
  have hrange : ∀ x ∈ ([72/100, 84/100, 1/2, 495/1000, 505/1000, 1/10, 9/10]
      : List ℚ), 0 < x ∧ x < 1 := by
    intro x hx
    fin_cases hx <;> norm_num
  exact ⟨hlen, hrange, c8_denormalization _ hlen hrange⟩

/-! ## Service endpoints (api/main.py)

The HTTP behaviour relevant to model availability: the forward model is an
abstract function from the preprocessed pipeline state to the 7 outputs;
responses are (status code, detail/body) pairs. -/

/-- `process_image` (lines 219-240): raises `RuntimeError("Model not
loaded")` when the global `model` is `None`; otherwise preprocesses with
the inference transform, runs the model and converts the outputs. -/
def process_image (model : Option (PState → List ℚ))
    (resizeF : Nat → Nat → Img → Img) (img : Img) :
    Except String (List (String × ℤ)) :=
  match model with
  | none => Except.error "Model not loaded"
  | some m =>
      Except.ok (outputToScores
        (m (applyPipeline resizeF ApiMainPy.get_inference_transform
          (PState.img img))))

/-- The `POST /score` handler (lines 242-260): any exception — a failed
image decode or the `process_image` error — is caught and re-raised as
`HTTPException(status_code=500, detail=str(e))`; success is HTTP 200. -/
def score_image (model : Option (PState → List ℚ))
    (resizeF : Nat → Nat → Img → Img) (decoded : Option Img) :
    Nat × String :=
  match decoded with
  | none => (500, "cannot identify image file")
  | some img =>
    match process_image model resizeF img with
    | Except.error e => (500, e)
    | Except.ok _ => (200, "ok")

/-- `GET /health` (lines 199-212): `HTTPException(503, "Model not loaded")`
when the model is not loaded, HTTP 200 otherwise. -/
def health (model : Option (PState → List ℚ)) : Nat × String :=
  match model with
  | none => (503, "Model not loaded")
  | some _ => (200, "ok")

/-- C3 counterexample: a `POST /score` request arriving before any model is
loaded is answered with the generic HTTP 500 (detail "Model not loaded"),
not with the distinguished 503 not-ready status the claim requires. -/
theorem c3_scoring_counterexample :
    score_image none (fun _ _ i => i) (some ⟨1, 1, fun _ _ _ => 0⟩)
      = (500, "Model not loaded") ∧
    (500 : Nat) ≠ 503 :=
  ⟨rfl, by decide⟩

/-- C3 (amended): a scoring request received before a model checkpoint is
loaded never crashes the service, but it is answered with the generic
HTTP 500 server error carrying detail "Model not loaded"; only the
`GET /health` endpoint reports the distinguished 503 not-ready status. -/
theorem c3_model_unavailable :
    (∀ (resizeF : Nat → Nat → Img → Img) (decoded : Option Img),
        (score_image none resizeF decoded).1 = 500) ∧
    (∀ (resizeF : Nat → Nat → Img → Img) (img : Img),
        score_image none resizeF (some img) = (500, "Model not loaded")) ∧
    health none = (503, "Model not loaded") := by
  refine ⟨?_, fun _ _ => rfl, rfl⟩
  intro resizeF decoded
  cases decoded <;> rfl

/-! ## Dataset iteration (train_model.py FacialScoreDataset + DataLoader)

`__getitem__` opens the image with `Image.open(...).convert("RGB")` and has
no exception handling: a decode failure propagates out of the DataLoader
loop.  Decoding is abstracted as a partial function from path to image;
`Except.error` carries the failing path. -/

/-- `FacialScoreDataset.__getitem__` (lines 77-93): look the index up,
decode the image (raising on failure), apply the transform, and build the
label vector; the score record defaults to `{}` when the filename is
missing from `scores_dict`. -/
def dataset_getitem (decode : String → Option Img) (tf : Img → Img)
    (scoresDict : String → Option ScoreRecord) (imagePaths : List String)
    (idx : Nat) : Except String (Img × List ℚ × String) :=
  match imagePaths.get? idx with
  | none => Except.error "index out of range"
  | some p =>
    match decode p with
    | none => Except.error p
    | some img =>
        Except.ok (tf img,
          datasetLabels ((scoresDict p).getD (fun _ => none)), p)

/-- One full DataLoader pass over the dataset in index order: every index
is fetched with `__getitem__`, and an exception aborts the pass. -/
def dataset_iterate (decode : String → Option Img) (tf : Img → Img)
    (scoresDict : String → Option ScoreRecord) (imagePaths : List String) :
    Except String (List (Img × List ℚ × String)) :=
  (List.range imagePaths.length).mapM
    (dataset_getitem decode tf scoresDict imagePaths)

theorem mapM_map_except {α β γ : Type} (g : α → β) (f : β → Except String γ)
    (l : List α) : (l.map g).mapM f = l.mapM (fun a => f (g a)) := by
  induction l with
  | nil => rfl
  | cons a t ih => rw [List.map_cons, List.mapM_cons, List.mapM_cons, ih]

theorem dataset_iterate_cons (decode : String → Option Img) (tf : Img → Img)
    (scoresDict : String → Option ScoreRecord) (p : String)
    (ps : List String) :
    dataset_iterate decode tf scoresDict (p :: ps)
      = match decode p with
        | none => Except.error p
        | some img =>
          match dataset_iterate decode tf scoresDict ps with
          | Except.error e => Except.error e
          | Except.ok items =>
              Except.ok ((tf img,
                datasetLabels ((scoresDict p).getD (fun _ => none)), p)
                :: items) := by
  show ((List.range (ps.length + 1)).mapM
      (dataset_getitem decode tf scoresDict (p :: ps))) = _
  rw [List.range_succ_eq_map, List.mapM_cons, mapM_map_except]
  have hshift : (fun i => dataset_getitem decode tf scoresDict (p :: ps)
      (Nat.succ i)) = dataset_getitem decode tf scoresDict ps := rfl
  rw [hshift]
  cases hdp : decode p with
  | none =>
      show (dataset_getitem decode tf scoresDict (p :: ps) 0 >>= _) = _
      simp [dataset_getitem, hdp, Bind.bind, Except.bind]
  | some img =>
      show (dataset_getitem decode tf scoresDict (p :: ps) 0 >>= _) = _
      cases hit : dataset_iterate decode tf scoresDict ps with
      | error e =>
          have hit' : List.mapM.loop
              (dataset_getitem decode tf scoresDict ps)
              (List.range ps.length) [] = Except.error e := hit
          simp [dataset_getitem, hdp, Bind.bind, Except.bind, hit']
      | ok items =>
          have hit' : List.mapM.loop
              (dataset_getitem decode tf scoresDict ps)
              (List.range ps.length) [] = Except.ok items := hit
          simp [dataset_getitem, hdp, Bind.bind, Except.bind, hit',
            Pure.pure, Except.pure]

/-- C4 counterexample: with two entries whose first image fails to decode,
the DataLoader pass raises on the first item — it never yields the second
(good) item, contradicting the claimed skip-and-continue behaviour. -/
theorem c4_abort_counterexample :
    dataset_iterate
        (fun p => if p = "bad.jpg" then none
                  else some ⟨1, 1, fun _ _ _ => 0⟩)
        id (fun _ => none) ["bad.jpg", "good.jpg"]
      = Except.error "bad.jpg" ∧
    ∀ items, dataset_iterate
        (fun p => if p = "bad.jpg" then none
                  else some ⟨1, 1, fun _ _ _ => 0⟩)
        id (fun _ => none) ["bad.jpg", "good.jpg"]
      ≠ Except.ok items := by
  have h1 : dataset_iterate
      (fun p => if p = "bad.jpg" then none
                else some ⟨1, 1, fun _ _ _ => 0⟩)
      id (fun _ => none) ["bad.jpg", "good.jpg"]
      = Except.error "bad.jpg" := by
    rw [dataset_iterate_cons]
    norm_num
  exact ⟨h1, fun items h => by rw [h1] at h; cases h⟩

/-- C4 (amended): the dataset has no per-item error handling — a single
decode failure aborts the whole pass with that item's error instead of
skipping it; a pass yields all items (one per entry, in order) exactly when
every entry decodes. -/
theorem c4_single_failure_aborts (decode : String → Option Img)
    (tf : Img → Img) (scoresDict : String → Option ScoreRecord) :
    ∀ imagePaths : List String,
      ((∃ items, dataset_iterate decode tf scoresDict imagePaths
          = Except.ok items) ↔ ∀ p ∈ imagePaths, (decode p).isSome) ∧
      (∀ items, dataset_iterate decode tf scoresDict imagePaths
          = Except.ok items → items.length = imagePaths.length) ∧
      ((∃ e, dataset_iterate decode tf scoresDict imagePaths
          = Except.error e) ↔ ∃ p ∈ imagePaths, decode p = none) := by
  intro paths
  induction paths with
  | nil =>
      have h0 : dataset_iterate decode tf scoresDict []
          = Except.ok [] := rfl
      refine ⟨?_, ?_, ?_⟩
      · constructor
        · intro _ p hp
          simp at hp
        · intro _
          exact ⟨[], h0⟩
      · intro items h
        rw [h0] at h
        injection h with h
        rw [← h]
        rfl
      · constructor
        · rintro ⟨e, he⟩
          rw [h0] at he
          cases he
        · rintro ⟨p, hp, _⟩
          simp at hp
  | cons p ps ih =>
      obtain ⟨ih1, ih2, ih3⟩ := ih
      cases hdp : decode p with
      | none =>
          have hE : dataset_iterate decode tf scoresDict (p :: ps)
              = Except.error p := by
            rw [dataset_iterate_cons, hdp]
          refine ⟨?_, ?_, ?_⟩
          · constructor
            · rintro ⟨items, hi⟩
              rw [hE] at hi
              cases hi
            · intro hall
              have hsome := hall p (List.mem_cons_self p ps)
              rw [hdp] at hsome
              cases hsome
          · intro items hi
            rw [hE] at hi
            cases hi
          · exact ⟨fun _ => ⟨p, List.mem_cons_self p ps, hdp⟩,
              fun _ => ⟨p, hE⟩⟩
      | some img =>
          cases hit : dataset_iterate decode tf scoresDict ps with
          | error e =>
              have hE : dataset_iterate decode tf scoresDict (p :: ps)
                  = Except.error e := by
                rw [dataset_iterate_cons, hdp, hit]
              obtain ⟨q, hq, hdq⟩ := ih3.mp ⟨e, hit⟩
              refine ⟨?_, ?_, ?_⟩
              · constructor
                · rintro ⟨items, hi⟩
                  rw [hE] at hi
                  cases hi
                · intro hall
                  have hsome := hall q (List.mem_cons_of_mem p hq)
                  rw [hdq] at hsome
                  cases hsome
              · intro items hi
                rw [hE] at hi
                cases hi
              · exact ⟨fun _ => ⟨q, List.mem_cons_of_mem p hq, hdq⟩,
                  fun _ => ⟨e, hE⟩⟩
          | ok items =>
              have hE : dataset_iterate decode tf scoresDict (p :: ps)
                  = Except.ok ((tf img,
                    datasetLabels ((scoresDict p).getD (fun _ => none)), p)
                    :: items) := by
                rw [dataset_iterate_cons, hdp, hit]
              have hlen : items.length = ps.length := ih2 items hit
              refine ⟨?_, ?_, ?_⟩
              · constructor
                · intro _ q hq
                  rcases List.mem_cons.mp hq with hq | hq
                  · rw [hq, hdp]
                    rfl
                  · exact (ih1.mp ⟨items, hit⟩) q hq
                · intro _
                  exact ⟨_, hE⟩
              · intro its hi
                rw [hE] at hi
                injection hi with h
                rw [← h]
                simp [hlen]
              · constructor
                · rintro ⟨e, he⟩
                  rw [hE] at he
                  cases he
                · rintro ⟨q, hq, hdq⟩
                  rcases List.mem_cons.mp hq with hq | hq
                  · rw [hq, hdp] at hdq
                    cases hdq
                  · obtain ⟨e, he⟩ := ih3.mpr ⟨q, hq, hdq⟩
                    exact ⟨e, by rw [dataset_iterate_cons, hdp, he]⟩

end Faccely
